import Mathlib

/-!
Verification of the glow execution-engine and bundle-consumer specification
against a shallow embedding of `lib/ExecutionEngine/ExecutionEngine.cpp` and
`examples/compile_lenet_mnist/lenet_mnist_standalone.cpp`.

Pure data is embedded directly; stateful C++ code is embedded as explicit
state-passing functions that additionally return a trace of observable events
(tensor copies, forward passes, pipeline stages), so that ordering claims can
be stated.  `assert` failures and `exit` are embedded as `Option.none`.
External collaborators (graph optimizer, lowering, backend hooks, tensor copy
routines, compiled network entry point) are either parameters of the engine
functions or are modelled from the spec, as marked in the doc comments.
-/

namespace Glow

/-- Visibility of a graph Variable (`VisibilityKind` in the source). -/
inductive VisibilityKind
  | Public
  | Private
deriving DecidableEq, Repr

/-- Compilation mode (`CompilationMode` in the source). -/
inductive CompilationMode
  | Train
  | Infer
deriving DecidableEq, Repr

/-- A tensor: its shape (`dims`) and its flat element contents. -/
structure GTensor where
  dims : List Nat
  data : List Int
deriving DecidableEq, Repr

/-- Modelled from the spec: `Tensor::copyFrom` is not under src/.  The spec
says `run` "binds each input Tensor to the corresponding Public Variable by
full-tensor copy": the destination's contents become exactly the source's. -/
def GTensor.copyFrom (t input : GTensor) : GTensor :=
  { t with data := input.data }

/-- Modelled from the spec: `Tensor::copyConsecutiveSlices` is not under src/.
The spec describes slice-copy along the leading dimension: the destination,
whose leading dimension is `b`, receives the `b` consecutive slices of the
source that start at slice index `startSliceIdx`. -/
def GTensor.copyConsecutiveSlices (t input : GTensor) (startSliceIdx : Nat) : GTensor :=
  { t with data :=
      ((input.data.drop (startSliceIdx * (t.dims.drop 1).prod)).take
        ((t.dims.headD 0) * (t.dims.drop 1).prod)) }

/-- A graph Variable: visibility tag plus backing Tensor payload. -/
structure GVariable where
  visibility : VisibilityKind
  payload : GTensor
deriving DecidableEq, Repr

/-- The Module: owner of the Variables shared across Functions.  Variables are
identified positionally (the C++ code identifies them by pointer). -/
structure Module where
  vars : List GVariable
deriving DecidableEq, Repr

/-- Backend kind requested at engine construction (`BackendKind`). -/
inductive BackendKind
  | Interpreter
  | JIT
deriving DecidableEq, Repr

/-- Modelled from the spec: the concrete `Backend` class is not under src/.
Kept state is its kind and whether `init` has been run (the spec: `init`
"prepares backend-private execution state"). -/
structure BackendState where
  kind : BackendKind
  initialized : Bool
deriving DecidableEq, Repr

/-- `createBackend(kind, IR)`: a freshly created backend carries no compiled
or initialized state. -/
def createBackend (kind : BackendKind) : BackendState :=
  { kind := kind, initialized := false }

/-- Modelled from the spec: `backend->init()` finalizes memory layout and
codegen; observably it marks the backend initialized. -/
def backendInit (b : BackendState) : BackendState :=
  { b with initialized := true }

/-- A low-level IR instruction (opaque payload). -/
structure IRInstr where
  tag : Nat
deriving DecidableEq, Repr

/-- A WeightVar or ActivationVar declaration in the IR (opaque payload). -/
structure IRDecl where
  size : Nat
deriving DecidableEq, Repr

/-- The IR container (`IRFunction`): ordered instructions, storage
declarations, and the graph it was generated from. -/
structure IRFunction (G : Type) where
  instrs : List IRInstr
  weightDecls : List IRDecl
  activationDecls : List IRDecl
  graph : Option G
deriving DecidableEq, Repr

/-- Modelled from the spec: `IRFunction::clear` is not under src/.  The spec
says `reset` "clears the IR container's instructions/declarations". -/
def IRFunction.clear {G : Type} (ir : IRFunction G) : IRFunction G :=
  { ir with instrs := [], weightDecls := [], activationDecls := [] }

/-- The Execution Engine state: the requested backend kind, the Module `M_`,
the IR container `IR_`, and the active backend `backend_`. -/
structure EngineState (G : Type) where
  backendKind_ : BackendKind
  M_ : Module
  IR_ : IRFunction G
  backend_ : BackendState
deriving DecidableEq, Repr

/-- `ExecutionEngine::ExecutionEngine(backendKind)`. -/
def ExecutionEngine.construct (G : Type) (backendKind : BackendKind) : EngineState G :=
  { backendKind_ := backendKind
    M_ := { vars := [] }
    IR_ := { instrs := [], weightDecls := [], activationDecls := [], graph := none }
    backend_ := createBackend backendKind }

/-- `ExecutionEngine::setBackend(backendKind)`. -/
def setBackend {G : Type} (s : EngineState G) (backendKind : BackendKind) : EngineState G :=
  { s with backendKind_ := backendKind, backend_ := createBackend backendKind }

/-- `ExecutionEngine::reset()`: clear the IR container and re-create the
backend instance from the stored kind. -/
def reset {G : Type} (s : EngineState G) : EngineState G :=
  { s with IR_ := s.IR_.clear, backend_ := createBackend s.backendKind_ }

/-- Observable events of `run` / `runBatch`: a full-tensor copy into variable
`idx`, a slice copy of slice `slc` into variable `idx`, and a forward pass. -/
inductive RunEvent
  | copyVar (idx : Nat)
  | sliceCopy (idx : Nat) (slc : Nat)
  | forwardPass
deriving DecidableEq, Repr

/-- `ExecutionEngine::loadValueFromTensor`: assert that the payload's shape
equals the input's, then whole-copy the input into the payload. -/
def loadValueFromTensor (v : GVariable) (input : GTensor) : Option GVariable :=
  if v.payload.dims = input.dims then
    some { v with payload := v.payload.copyFrom input }
  else
    none

/-- The slice index `slc` computed in `loadValueFromTensorSlice`:
`sampleIdx % dim[0]` where `dim` is the input tensor's shape. -/
def sliceIndexFor (sampleIdx : Nat) (input : GTensor) : Nat :=
  sampleIdx % input.dims.headD 0

/-- `ExecutionEngine::loadValueFromTensorSlice`: assert that payload and input
agree on all but the leading dimension, then copy the consecutive slices
starting at `sampleIdx % dim[0]` into the payload. -/
def loadValueFromTensorSlice (v : GVariable) (input : GTensor) (sampleIdx : Nat) :
    Option GVariable :=
  if v.payload.dims.drop 1 = input.dims.drop 1 then
    some { v with payload :=
            v.payload.copyConsecutiveSlices input (sliceIndexFor sampleIdx input) }
  else
    none

/-- The input-binding loop of `ExecutionEngine::run`: for each variable index,
assert the variable is Public and whole-copy the matching input into it. -/
def bindVars : Module → List Nat → List GTensor → List RunEvent × Option Module
  | m, [], _ => ([], some m)
  | _, _ :: _, [] => ([], none)
  | m, vi :: vrest, t :: trest =>
    match m.vars[vi]? with
    | none => ([], none)
    | some v =>
      if v.visibility = VisibilityKind.Public then
        match loadValueFromTensor v t with
        | none => ([], none)
        | some v' =>
          let r := bindVars { vars := m.vars.set vi v' } vrest trest
          (RunEvent.copyVar vi :: r.1, r.2)
      else ([], none)

/-- `ExecutionEngine::run`: assert the input count matches the variable count
and the IR container is non-empty, bind every input, then do one forward
pass.  `fwd` is the backend's `doForwardPass`, a mapping over the Module. -/
def run {G : Type} (fwd : Module → Module) (s : EngineState G) (varIdxs : List Nat)
    (inputs : List GTensor) : List RunEvent × Option (EngineState G) :=
  if inputs.length ≠ varIdxs.length then ([], none)
  else if s.IR_.instrs.isEmpty then ([], none)
  else
    match bindVars s.M_ varIdxs inputs with
    | (evs, none) => (evs, none)
    | (evs, some m') => (evs ++ [RunEvent.forwardPass], some { s with M_ := fwd m' })

/-- The slice-binding loop of `ExecutionEngine::updateInputsAndRunNetwork`:
for each variable index, slice-copy the matching input at `sampleIdx`. -/
def loadSlices (sampleIdx : Nat) :
    Module → List Nat → List GTensor → List RunEvent × Option Module
  | m, [], _ => ([], some m)
  | _, _ :: _, [] => ([], none)
  | m, vi :: vrest, t :: trest =>
    match m.vars[vi]? with
    | none => ([], none)
    | some v =>
      match loadValueFromTensorSlice v t sampleIdx with
      | none => ([], none)
      | some v' =>
        let r := loadSlices sampleIdx { vars := m.vars.set vi v' } vrest trest
        (RunEvent.sliceCopy vi (sliceIndexFor sampleIdx t) :: r.1, r.2)

/-- `ExecutionEngine::updateInputsAndRunNetwork`: load one slice of every
input into its variable, then run the network once. -/
def updateInputsAndRunNetwork {G : Type} (fwd : Module → Module) (s : EngineState G)
    (varIdxs : List Nat) (inputs : List GTensor) (sampleIdx : Nat) :
    List RunEvent × Option (EngineState G) :=
  match loadSlices sampleIdx s.M_ varIdxs inputs with
  | (evs, none) => (evs, none)
  | (evs, some m') => (evs ++ [RunEvent.forwardPass], some { s with M_ := fwd m' })

/-- The batch size read in `ExecutionEngine::runBatch`:
`vars[0]->getType()->dims()[0]`, the leading dimension of the first target
Variable. -/
def batchSizeOf {G : Type} (s : EngineState G) (varIdxs : List Nat) : Nat :=
  match s.M_.vars[varIdxs.headD 0]? with
  | some v => v.payload.dims.headD 0
  | none => 0

/-- The iteration loop of `ExecutionEngine::runBatch`: each iteration updates
the inputs from the current counter and advances the counter by the batch
size. -/
def runBatchLoop {G : Type} (fwd : Module → Module) (varIdxs : List Nat)
    (inputs : List GTensor) (B : Nat) :
    EngineState G → Nat → Nat → List RunEvent × Option (EngineState G × Nat)
  | s, c, 0 => ([], some (s, c))
  | s, c, Nat.succ n =>
    match updateInputsAndRunNetwork fwd s varIdxs inputs c with
    | (evs, none) => (evs, none)
    | (evs, some s') =>
      let r := runBatchLoop fwd varIdxs inputs B s' (c + B) n
      (evs ++ r.1, r.2)

/-- `ExecutionEngine::runBatch`: assert inputs are non-empty, counts match and
the IR container is non-empty, then iterate.  The sample counter `c` models
the function-local `static size_t trainCounter`, which in C++ is a single
process-wide object: it enters and leaves this function explicitly. -/
def runBatch {G : Type} (fwd : Module → Module) (s : EngineState G) (c : Nat)
    (iterations : Nat) (varIdxs : List Nat) (inputs : List GTensor) :
    List RunEvent × Option (EngineState G × Nat) :=
  if inputs.isEmpty then ([], none)
  else if inputs.length ≠ varIdxs.length then ([], none)
  else if s.IR_.instrs.isEmpty then ([], none)
  else
    match s.M_.vars[varIdxs.headD 0]? with
    | none => ([], none)
    | some _ => runBatchLoop fwd varIdxs inputs (batchSizeOf s varIdxs) s c iterations

/-- Observable stages of `ExecutionEngine::generateIR`, in the order the
source performs them. -/
inductive PipeStep
  | reset
  | verify
  | optimizeGraph
  | preLowerTransform
  | lower
  | postLowerTransform
  | setGraph
  | genIR
  | optimizeIR
deriving DecidableEq, Repr

/-- The external pipeline collaborators `ExecutionEngine::generateIR` calls:
graph verification, the graph optimizer, the lowering pass, the two backend
transform hooks (each reporting whether it mutated the graph), IR generation
and the IR optimizer.  They live outside src/, so they are parameters. -/
structure PipelineOps (G : Type) where
  verify : G → Bool
  optimize : G → CompilationMode → G
  lower : G → CompilationMode → BackendState → G
  transformPreLowering : BackendState → G → CompilationMode → G × Bool
  transformPostLowering : BackendState → G → CompilationMode → G × Bool
  genIRFromGraph : G → IRFunction G → IRFunction G
  optimizeIR : IRFunction G → CompilationMode → BackendState → IRFunction G

/-- `ExecutionEngine::generateIR(mode, F)`: reset, verify (abort if invalid),
optimize, pre-lowering transform (re-optimize if it mutated), lower,
optimize, post-lowering transform (re-optimize if it mutated), bind the IR
container to the graph, generate IR, optimize the IR. -/
def generateIR {G : Type} (ops : PipelineOps G) (s : EngineState G)
    (mode : CompilationMode) (F : G) : List PipeStep × Option (EngineState G) :=
  let s0 := reset s
  if ops.verify F then
    let F1 := ops.optimize F mode
    let pre := ops.transformPreLowering s0.backend_ F1 mode
    let preEvs : List PipeStep := if pre.2 then [PipeStep.optimizeGraph] else []
    let F2 := if pre.2 then ops.optimize pre.1 mode else pre.1
    let F3 := ops.lower F2 mode s0.backend_
    let F4 := ops.optimize F3 mode
    let post := ops.transformPostLowering s0.backend_ F4 mode
    let postEvs : List PipeStep := if post.2 then [PipeStep.optimizeGraph] else []
    let F5 := if post.2 then ops.optimize post.1 mode else post.1
    let ir1 : IRFunction G := { s0.IR_ with graph := some F5 }
    let ir2 := ops.genIRFromGraph F5 ir1
    let ir3 := ops.optimizeIR ir2 mode s0.backend_
    ([PipeStep.reset, PipeStep.verify, PipeStep.optimizeGraph,
        PipeStep.preLowerTransform] ++ preEvs
      ++ [PipeStep.lower, PipeStep.optimizeGraph, PipeStep.postLowerTransform] ++ postEvs
      ++ [PipeStep.setGraph, PipeStep.genIR, PipeStep.optimizeIR],
     some { s0 with IR_ := ir3 })
  else
    ([PipeStep.reset, PipeStep.verify], none)

/-- `ExecutionEngine::compile(mode, F)`: `generateIR` then `backend->init()`. -/
def compile {G : Type} (ops : PipelineOps G) (s : EngineState G)
    (mode : CompilationMode) (F : G) : List PipeStep × Option (EngineState G) :=
  match generateIR ops s mode F with
  | (evs, none) => (evs, none)
  | (evs, some s') => (evs, some { s' with backend_ := backendInit s'.backend_ })

/-- The stage sequence the spec prescribes for `generateIR`, as a function of
whether the pre- and post-lowering backend transforms report a mutation:
reset, verify, optimize, pre-lowering transform, re-optimize iff it mutated,
lower, optimize, post-lowering transform, re-optimize iff it mutated, bind
the IR container, generate IR, optimize the IR. -/
def generateIRSpecTrace (preMutated postMutated : Bool) : List PipeStep :=
  [PipeStep.reset, PipeStep.verify, PipeStep.optimizeGraph, PipeStep.preLowerTransform]
    ++ (if preMutated then [PipeStep.optimizeGraph] else [])
    ++ [PipeStep.lower, PipeStep.optimizeGraph, PipeStep.postLowerTransform]
    ++ (if postMutated then [PipeStep.optimizeGraph] else [])
    ++ [PipeStep.setGraph, PipeStep.genIR, PipeStep.optimizeIR]

/-- The pre-lowering transform call `generateIR` performs: the backend is the
freshly re-created one and the graph is the once-optimized function. -/
def preLowerCall {G : Type} (ops : PipelineOps G) (s : EngineState G)
    (mode : CompilationMode) (F : G) : G × Bool :=
  ops.transformPreLowering (createBackend s.backendKind_) (ops.optimize F mode) mode

/-- Whether the pre-lowering transform reports a mutation in `generateIR`. -/
def preMutOf {G : Type} (ops : PipelineOps G) (s : EngineState G)
    (mode : CompilationMode) (F : G) : Bool :=
  (preLowerCall ops s mode F).2

/-- The graph handed to the post-lowering transform by `generateIR`: the
pre-lowering result (re-optimized iff that transform mutated), lowered, then
optimized. -/
def graphBeforePostLower {G : Type} (ops : PipelineOps G) (s : EngineState G)
    (mode : CompilationMode) (F : G) : G :=
  let p := preLowerCall ops s mode F
  let F2 := if p.2 then ops.optimize p.1 mode else p.1
  ops.optimize (ops.lower F2 mode (createBackend s.backendKind_)) mode

/-- Whether the post-lowering transform reports a mutation in `generateIR`. -/
def postMutOf {G : Type} (ops : PipelineOps G) (s : EngineState G)
    (mode : CompilationMode) (F : G) : Bool :=
  (ops.transformPostLowering (createBackend s.backendKind_)
      (graphBeforePostLower ops s mode F) mode).2

/-- A process: the single `static size_t trainCounter` that lives inside
`ExecutionEngine::runBatch` (one object for the whole process, whichever
engine instance is running), plus every live engine instance. -/
structure ProcessState (G : Type) where
  trainCounter : Nat
  engines : List (EngineState G)
deriving DecidableEq, Repr

/-- `reset()` invoked on engine `i` of the process: the static counter is not
mentioned by `reset`, so it is untouched. -/
def processReset {G : Type} (p : ProcessState G) (i : Nat) : ProcessState G :=
  match p.engines[i]? with
  | none => p
  | some s => { p with engines := p.engines.set i (reset s) }

/-- `run` invoked on engine `i` of the process: `run` never mentions the
static counter. -/
def processRun {G : Type} (fwd : Module → Module) (p : ProcessState G) (i : Nat)
    (varIdxs : List Nat) (inputs : List GTensor) :
    List RunEvent × Option (ProcessState G) :=
  match p.engines[i]? with
  | none => ([], none)
  | some s =>
    match run fwd s varIdxs inputs with
    | (evs, none) => (evs, none)
    | (evs, some s') => (evs, some { p with engines := p.engines.set i s' })

/-- `compile` invoked on engine `i` of the process: `compile` never mentions
the static counter. -/
def processCompile {G : Type} (ops : PipelineOps G) (p : ProcessState G) (i : Nat)
    (mode : CompilationMode) (F : G) : List PipeStep × Option (ProcessState G) :=
  match p.engines[i]? with
  | none => ([], none)
  | some s =>
    match compile ops s mode F with
    | (evs, none) => (evs, none)
    | (evs, some s') => (evs, some { p with engines := p.engines.set i s' })

/-- `runBatch` invoked on engine `i` of the process: it reads the one static
counter, runs, and writes the advanced counter back, whichever engine ran. -/
def processRunBatch {G : Type} (fwd : Module → Module) (p : ProcessState G) (i : Nat)
    (iterations : Nat) (varIdxs : List Nat) (inputs : List GTensor) :
    List RunEvent × Option (ProcessState G) :=
  match p.engines[i]? with
  | none => ([], none)
  | some s =>
    match runBatch fwd s p.trainCounter iterations varIdxs inputs with
    | (evs, none) => (evs, none)
    | (evs, some (s', c')) =>
      (evs, some { trainCounter := c', engines := p.engines.set i s' })

/-- The memory-sizing record of a compiled bundle
(`struct BundleConfig` in `lenet_mnist_standalone.cpp`): it declares the
three region sizes and nothing else. -/
structure BundleConfig where
  constantWeightVarsMemSize : Nat
  mutableWeightVarsMemSize : Nat
  activationsMemSize : Nat
deriving DecidableEq, Repr

/-- `initConstantWeights(weightsFileName, config)`: read the file length,
`calloc` a buffer of that length, assert the length equals
`constantWeightVarsMemSize` (fatal otherwise), then `fread` the whole file
into the buffer, so the buffer holds exactly the file's bytes. -/
def initConstantWeights (weightsFile : List Nat) (config : BundleConfig) :
    Option (List Nat) :=
  if weightsFile.length = config.constantWeightVarsMemSize then
    some weightsFile
  else
    none

/-- `allocateMutableWeightVars(config)`:
`calloc(1, config->mutableWeightVarsMemSize)`. -/
def allocateMutableWeightVars (config : BundleConfig) : List Nat :=
  List.replicate config.mutableWeightVarsMemSize 0

/-- `memcpy(buf + off, data, data.length)` on a byte buffer, truncated to the
buffer's length. -/
def writeBytes (buf : List Nat) (off : Nat) (data : List Nat) : List Nat :=
  (buf.take off ++ data ++ buf.drop (off + data.length)).take buf.length

/-- `initMutableWeightVars(config)`: allocate the zeroed mutable buffer, then
copy the image data into it twice (at offset 0 for `data` and right after it
for `gpu_0/data`). -/
def initMutableWeightVars (config : BundleConfig) (imageBytes : List Nat) : List Nat :=
  writeBytes (writeBytes (allocateMutableWeightVars config) 0 imageBytes)
    imageBytes.length imageBytes

/-- `initActivations(config)`: `calloc(1, config->activationsMemSize)`. -/
def initActivations (config : BundleConfig) : List Nat :=
  List.replicate config.activationsMemSize 0

/-- The byte offset, inside the mutable-weights buffer, at which
`dumpInferenceResults` reads the results vector:
`mutableWeightVars + config->mutableWeightVarsMemSize - 40`. -/
def resultsOffset (config : BundleConfig) : Nat :=
  config.mutableWeightVarsMemSize - 40

/-- The 40-byte region `dumpInferenceResults` interprets as the ten float
scores. -/
def dumpInferenceResultsRegion (config : BundleConfig)
    (mutableWeightVars : List Nat) : List Nat :=
  (mutableWeightVars.drop (resultsOffset config)).take 40

/-- Observable events of the standalone bundle consumer's `main`. -/
inductive MainEvent
  | loadConstants
  | loadInputs
  | allocActivations
  | entryPoint
  | dumpResults
deriving DecidableEq, Repr

/-- `main` of `lenet_mnist_standalone.cpp`: load constants (fatal on a wrong
weights-file size), build the mutable buffer from the input image, allocate
activations, invoke the compiled entry point once, dump the results.  The
compiled network `entry` is a parameter mapping the three buffers to their
updated contents. -/
def mainBundle
    (entry : List Nat → List Nat → List Nat → List Nat × List Nat × List Nat)
    (config : BundleConfig) (weightsFile : List Nat) (imageBytes : List Nat) :
    List MainEvent × Option (List Nat × List Nat × List Nat) :=
  match initConstantWeights weightsFile config with
  | none => ([MainEvent.loadConstants], none)
  | some constBuf =>
    let mutBuf := initMutableWeightVars config imageBytes
    let actBuf := initActivations config
    let out := entry constBuf mutBuf actBuf
    ([MainEvent.loadConstants, MainEvent.loadInputs, MainEvent.allocActivations,
        MainEvent.entryPoint, MainEvent.dumpResults],
     some out)

/-- The slice-copy and forward-pass events the spec prescribes for iteration
`i` of `runBatch` started at cursor `c` with batch size `B`: variable `p.1`
receives slice `(c + i * B) % N` where `N` is the leading dimension of its
input `p.2`. -/
def iterationSliceEvents (B : Nat) (varIdxs : List Nat) (inputs : List GTensor)
    (c i : Nat) : List RunEvent :=
  (varIdxs.zip inputs).map
      (fun p => RunEvent.sliceCopy p.1 ((c + i * B) % p.2.dims.headD 0))
    ++ [RunEvent.forwardPass]

/-- The full event trace the spec prescribes for `runBatch` over `k`
iterations from cursor `c`: each iteration selects the slice at the current
cursor modulo the input's leading dimension, then the cursor advances by the
batch size `B`. -/
def specBatchTrace (B : Nat) (varIdxs : List Nat) (inputs : List GTensor) :
    Nat → Nat → List RunEvent
  | _, 0 => []
  | c, Nat.succ k =>
    iterationSliceEvents B varIdxs inputs c 0
      ++ specBatchTrace B varIdxs inputs (c + B) k

/-- Concrete pipeline collaborators over `G := Nat`, used to evaluate the
engine on closed inputs. -/
def opsEx : PipelineOps Nat :=
  { verify := fun g => g != 0
    optimize := fun g _ => g + 1
    lower := fun g _ _ => g * 2
    transformPreLowering := fun _ g _ => (g + 3, true)
    transformPostLowering := fun _ g _ => (g, false)
    genIRFromGraph := fun g ir => { ir with instrs := [{ tag := g }] }
    optimizeIR := fun ir _ _ => ir }

/-- A freshly constructed engine over `G := Nat`. -/
def engEx : EngineState Nat := ExecutionEngine.construct Nat BackendKind.Interpreter

/-- An identity entry point for the bundle consumer. -/
def entryEx : List Nat → List Nat → List Nat → List Nat × List Nat × List Nat :=
  fun c m a => (c, m, a)

/-- C5: `reset()` clears the IR container's instructions and declarations and
re-creates the Backend instance from the stored kind, discarding initialized
backend state, while the Module (every Variable and its payload) and the
stored backend kind are left unchanged. -/
theorem reset_clears_ir_preserves_module {G : Type} (s : EngineState G) :
    (reset s).IR_.instrs = [] ∧ (reset s).IR_.weightDecls = [] ∧
    (reset s).IR_.activationDecls = [] ∧
    (reset s).backend_ = createBackend s.backendKind_ ∧
    (reset s).backend_.initialized = false ∧
    (reset s).M_ = s.M_ ∧
    (reset s).backendKind_ = s.backendKind_ :=
  ⟨rfl, rfl, rfl, rfl, rfl, rfl, rfl⟩

/-- C6: `run` and `runBatch` on an engine whose IR container holds no
instructions are rejected with an empty event trace — no variable binding
and no forward pass happens. -/
theorem run_requires_nonempty_ir {G : Type} (fwd : Module → Module)
    (s : EngineState G) (c k : Nat) (varIdxs : List Nat) (inputs : List GTensor)
    (h : s.IR_.instrs = []) :
    run fwd s varIdxs inputs = ([], none) ∧
    runBatch fwd s c k varIdxs inputs = ([], none) := by
  have hi : s.IR_.instrs.isEmpty = true := by simp [h]
  constructor
  · unfold run
    split
    · rfl
    · simp [hi]
  · unfold runBatch
    split
    · rfl
    · split
      · rfl
      · simp [hi]

theorem run_requires_nonempty_ir_witness :
    run id engEx [] [] = ([], none) ∧ runBatch id engEx 0 1 [] [] = ([], none) :=
  run_requires_nonempty_ir id engEx 0 1 [] [] rfl

/-- C7 counterexample: the results pointer of `dumpInferenceResults` is the
hard-coded offset `mutableWeightVarsMemSize - 40` — at both of these concrete
configs it sits exactly 40 bytes before the end of the mutable buffer and
moves with the buffer size, so it is not obtained from bundle-declared
variable-layout offsets (`BundleConfig` declares none). -/
theorem results_offset_counterexample :
    resultsOffset { constantWeightVarsMemSize := 1, mutableWeightVarsMemSize := 100,
                    activationsMemSize := 1 } = 60 ∧
    resultsOffset { constantWeightVarsMemSize := 1, mutableWeightVarsMemSize := 200,
                    activationsMemSize := 1 } = 160 ∧
    100 - 60 = 40 ∧ 200 - 160 = 40 := by
  decide

/-- C7 amended: the standalone bundle consumer locates the inference results
at the hard-coded byte offset `mutableWeightVarsMemSize - 40` — 40 bytes
before the end of the mutable buffer — rather than at a bundle-declared
variable-layout offset. -/
theorem results_offset_hardcoded (config : BundleConfig) (buf : List Nat)
    (h : 40 ≤ config.mutableWeightVarsMemSize) :
    resultsOffset config = config.mutableWeightVarsMemSize - 40 ∧
    config.mutableWeightVarsMemSize - resultsOffset config = 40 ∧
    dumpInferenceResultsRegion config buf =
      (buf.drop (config.mutableWeightVarsMemSize - 40)).take 40 := by
  refine ⟨rfl, ?_, rfl⟩
  unfold resultsOffset
  omega

theorem results_offset_hardcoded_witness :
    resultsOffset { constantWeightVarsMemSize := 1, mutableWeightVarsMemSize := 100,
                    activationsMemSize := 1 } = 100 - 40 ∧
    100 - resultsOffset { constantWeightVarsMemSize := 1, mutableWeightVarsMemSize := 100,
                          activationsMemSize := 1 } = 40 ∧
    dumpInferenceResultsRegion { constantWeightVarsMemSize := 1,
                                 mutableWeightVarsMemSize := 100,
                                 activationsMemSize := 1 } [] =
      (List.drop (100 - 40) ([] : List Nat)).take 40 :=
  results_offset_hardcoded _ [] (by decide)

/-- C4: a weights file whose byte length differs from
`constantWeightVarsMemSize` is rejected fatally before the compiled entry
point is invoked, and a file of the correct length is loaded byte-identical
into the constant-weights buffer. -/
theorem weights_file_size_contract
    (entry : List Nat → List Nat → List Nat → List Nat × List Nat × List Nat)
    (config : BundleConfig) (weightsFile imageBytes : List Nat) :
    (weightsFile.length ≠ config.constantWeightVarsMemSize →
      initConstantWeights weightsFile config = none ∧
      mainBundle entry config weightsFile imageBytes = ([MainEvent.loadConstants], none) ∧
      MainEvent.entryPoint ∉ (mainBundle entry config weightsFile imageBytes).1) ∧
    (weightsFile.length = config.constantWeightVarsMemSize →
      initConstantWeights weightsFile config = some weightsFile) := by
  constructor
  · intro h
    have hnone : initConstantWeights weightsFile config = none := by
      simp [initConstantWeights, h]
    refine ⟨hnone, ?_, ?_⟩
    · simp [mainBundle, hnone]
    · simp [mainBundle, hnone]
  · intro h
    simp [initConstantWeights, h]

/-- A config whose constant-weights size matches the example file `[5, 6]`. -/
def cfgMatch : BundleConfig :=
  { constantWeightVarsMemSize := 2, mutableWeightVarsMemSize := 0, activationsMemSize := 0 }

/-- A config whose constant-weights size does not match `[5, 6]`. -/
def cfgMismatch : BundleConfig :=
  { constantWeightVarsMemSize := 3, mutableWeightVarsMemSize := 0, activationsMemSize := 0 }

theorem weights_file_size_contract_witness :
    initConstantWeights [5, 6] cfgMatch = some [5, 6] ∧
    mainBundle entryEx cfgMismatch [5, 6] [] = ([MainEvent.loadConstants], none) :=
  ⟨(weights_file_size_contract entryEx cfgMatch [5, 6] []).2 rfl,
   ((weights_file_size_contract entryEx cfgMismatch [5, 6] []).1 (by decide)).2.1⟩

/-- C1: for every mode and Function, `generateIR` performs exactly the
prescribed sequence — reset, verify (terminal failure if invalid), optimize,
pre-lowering backend transform with a re-optimization iff it reports a
mutation, lower, optimize, post-lowering backend transform with a
re-optimization iff it reports a mutation, bind the IR container to the
graph, generate the IR, and finally optimize the IR. -/
theorem generateIR_pipeline_order {G : Type} (ops : PipelineOps G) (s : EngineState G)
    (mode : CompilationMode) (F : G) :
    (ops.verify F = true →
      (generateIR ops s mode F).1 =
        generateIRSpecTrace (preMutOf ops s mode F) (postMutOf ops s mode F) ∧
      (generateIR ops s mode F).2.isSome = true) ∧
    (ops.verify F = false →
      generateIR ops s mode F = ([PipeStep.reset, PipeStep.verify], none)) := by
  constructor
  · intro hv
    simp only [generateIR, generateIRSpecTrace, preMutOf, postMutOf, preLowerCall,
      graphBeforePostLower, reset, hv, if_true]
    cases hpre : ops.transformPreLowering (createBackend s.backendKind_)
        (ops.optimize F mode) mode with
    | mk Fp bp =>
      cases bp <;>
        · simp only [hpre]
          cases hpost : ops.transformPostLowering (createBackend s.backendKind_)
              (ops.optimize (ops.lower Fp mode (createBackend s.backendKind_)) mode) mode
          simp_all
  · intro hv
    simp [generateIR, hv]

theorem generateIR_pipeline_order_witness :
    (generateIR opsEx engEx CompilationMode.Infer 3).1 =
      generateIRSpecTrace (preMutOf opsEx engEx CompilationMode.Infer 3)
        (postMutOf opsEx engEx CompilationMode.Infer 3) ∧
    (generateIR opsEx engEx CompilationMode.Infer 3).2.isSome = true :=
  (generateIR_pipeline_order opsEx engEx CompilationMode.Infer 3).1 rfl

/-- The binding-invariant part of a variable: its visibility and shape. -/
def varShape (v : GVariable) : VisibilityKind × List Nat :=
  (v.visibility, v.payload.dims)

lemma loadValueFromTensor_shape {v v' : GVariable} {t : GTensor}
    (h : loadValueFromTensor v t = some v') :
    v'.visibility = v.visibility ∧ v'.payload.dims = v.payload.dims ∧
    v'.payload.data = t.data ∧ v.payload.dims = t.dims := by
  unfold loadValueFromTensor at h
  split at h
  · cases h
    exact ⟨rfl, rfl, rfl, by assumption⟩
  · cases h

lemma bindVars_preserves {vis : List Nat} :
    ∀ {m : Module} {ts : List GTensor} {evs : List RunEvent} {m' : Module},
      bindVars m vis ts = (evs, some m') →
      m'.vars.length = m.vars.length ∧
      ∀ j : Nat, (m'.vars[j]?).map varShape = (m.vars[j]?).map varShape := by
  induction vis with
  | nil =>
    intro m ts evs m' h
    simp only [bindVars, Prod.mk.injEq, Option.some.injEq] at h
    obtain ⟨-, rfl⟩ := h
    exact ⟨rfl, fun j => rfl⟩
  | cons vi vrest ih =>
    intro m ts evs m' h
    cases ts with
    | nil => simp [bindVars] at h
    | cons t trest =>
      simp only [bindVars] at h
      split at h
      · simp at h
      · rename_i v hv
        split at h
        · split at h
          · simp at h
          · rename_i v' hload
            simp only [Prod.mk.injEq] at h
            obtain ⟨-, h2⟩ := h
            have hrec :
                bindVars { vars := m.vars.set vi v' } vrest trest =
                  ((bindVars { vars := m.vars.set vi v' } vrest trest).1, some m') := by
              rw [← h2]
            obtain ⟨hlen, hmap⟩ := ih hrec
            have hvi : vi < m.vars.length := by
              exact (List.getElem?_eq_some.mp hv).1
            refine ⟨by simpa using hlen, fun j => ?_⟩
            rw [hmap j]
            rcases Decidable.em (vi = j) with rfl | hne
            · rw [List.getElem?_set_self (by simpa using hvi), hv]
              obtain ⟨h1, h2', -, -⟩ := loadValueFromTensor_shape hload
              simp [varShape, h1, h2']
            · rw [List.getElem?_set_ne hne]
        · simp at h

lemma bindVars_frame {vis : List Nat} :
    ∀ {m : Module} {ts : List GTensor} {evs : List RunEvent} {m' : Module},
      bindVars m vis ts = (evs, some m') →
      ∀ j : Nat, j ∉ vis → m'.vars[j]? = m.vars[j]? := by
  induction vis with
  | nil =>
    intro m ts evs m' h j _
    simp only [bindVars, Prod.mk.injEq, Option.some.injEq] at h
    obtain ⟨-, rfl⟩ := h
    rfl
  | cons vi vrest ih =>
    intro m ts evs m' h j hj
    cases ts with
    | nil => simp [bindVars] at h
    | cons t trest =>
      simp only [bindVars] at h
      split at h
      · simp at h
      · rename_i v hv
        split at h
        · split at h
          · simp at h
          · rename_i v' hload
            simp only [Prod.mk.injEq] at h
            obtain ⟨-, h2⟩ := h
            have hrec :
                bindVars { vars := m.vars.set vi v' } vrest trest =
                  ((bindVars { vars := m.vars.set vi v' } vrest trest).1, some m') := by
              rw [← h2]
            have hj1 : j ≠ vi := fun hc => hj (hc ▸ List.mem_cons_self vi vrest)
            have hj2 : j ∉ vrest := fun hc => hj (List.mem_cons_of_mem vi hc)
            rw [ih hrec j hj2]
            exact List.getElem?_set_ne (fun hc => hj1 hc.symm)
        · simp at h

lemma bindVars_events {vis : List Nat} :
    ∀ {m : Module} {ts : List GTensor} {evs : List RunEvent} {m' : Module},
      bindVars m vis ts = (evs, some m') →
      evs = vis.map RunEvent.copyVar := by
  induction vis with
  | nil =>
    intro m ts evs m' h
    simp only [bindVars, Prod.mk.injEq, Option.some.injEq] at h
    obtain ⟨h1, -⟩ := h
    simp [h1.symm]
  | cons vi vrest ih =>
    intro m ts evs m' h
    cases ts with
    | nil => simp [bindVars] at h
    | cons t trest =>
      simp only [bindVars] at h
      split at h
      · simp at h
      · rename_i v hv
        split at h
        · split at h
          · simp at h
          · rename_i v' hload
            simp only [Prod.mk.injEq] at h
            obtain ⟨h1, h2⟩ := h
            have hrec :
                bindVars { vars := m.vars.set vi v' } vrest trest =
                  ((bindVars { vars := m.vars.set vi v' } vrest trest).1, some m') := by
              rw [← h2]
            rw [← h1, List.map_cons, ih hrec]
        · simp at h

lemma bindVars_targets {vis : List Nat} :
    ∀ {m : Module} {ts : List GTensor} {evs : List RunEvent} {m' : Module},
      bindVars m vis ts = (evs, some m') →
      ∀ p ∈ vis.zip ts, ∃ v, m.vars[p.1]? = some v ∧
        v.visibility = VisibilityKind.Public ∧ v.payload.dims = p.2.dims := by
  induction vis with
  | nil =>
    intro m ts evs m' h p hp
    simp at hp
  | cons vi vrest ih =>
    intro m ts evs m' h p hp
    cases ts with
    | nil => simp [bindVars] at h
    | cons t trest =>
      simp only [bindVars] at h
      split at h
      · simp at h
      · rename_i v hv
        split at h
        · rename_i hpub
          split at h
          · simp at h
          · rename_i v' hload
            simp only [Prod.mk.injEq] at h
            obtain ⟨-, h2⟩ := h
            have hrec :
                bindVars { vars := m.vars.set vi v' } vrest trest =
                  ((bindVars { vars := m.vars.set vi v' } vrest trest).1, some m') := by
              rw [← h2]
            rcases List.mem_cons.mp hp with rfl | hp'
            · obtain ⟨-, -, -, hdims⟩ := loadValueFromTensor_shape hload
              exact ⟨v, hv, hpub, hdims⟩
            · obtain ⟨w, hw, hwpub, hwdims⟩ := ih hrec p hp'
              have hvi : vi < m.vars.length := (List.getElem?_eq_some.mp hv).1
              rcases Decidable.em (vi = p.1) with heq | hne
              · subst heq
                rw [List.getElem?_set_self (by simpa using hvi)] at hw
                cases hw
                obtain ⟨h1, h2', -, -⟩ := loadValueFromTensor_shape hload
                exact ⟨v, hv, by rw [← h1]; exact hwpub, by rw [← h2']; exact hwdims⟩
              · rw [List.getElem?_set_ne hne] at hw
                exact ⟨w, hw, hwpub, hwdims⟩
        · simp at h

lemma bindVars_payload {vis : List Nat} :
    ∀ {m : Module} {ts : List GTensor} {evs : List RunEvent} {m' : Module},
      vis.Nodup → bindVars m vis ts = (evs, some m') →
      ∀ p ∈ vis.zip ts, ∃ v, m'.vars[p.1]? = some v ∧ v.payload.data = p.2.data := by
  induction vis with
  | nil =>
    intro m ts evs m' _ h p hp
    simp at hp
  | cons vi vrest ih =>
    intro m ts evs m' hnd h p hp
    cases ts with
    | nil => simp [bindVars] at h
    | cons t trest =>
      simp only [bindVars] at h
      split at h
      · simp at h
      · rename_i v hv
        split at h
        · split at h
          · simp at h
          · rename_i v' hload
            simp only [Prod.mk.injEq] at h
            obtain ⟨-, h2⟩ := h
            have hrec :
                bindVars { vars := m.vars.set vi v' } vrest trest =
                  ((bindVars { vars := m.vars.set vi v' } vrest trest).1, some m') := by
              rw [← h2]
            have hvi : vi < m.vars.length := (List.getElem?_eq_some.mp hv).1
            rcases List.mem_cons.mp hp with rfl | hp'
            · have hnot : vi ∉ vrest := (List.nodup_cons.mp hnd).1
              have := bindVars_frame hrec vi hnot
              rw [List.getElem?_set_self (by simpa using hvi)] at this
              obtain ⟨-, -, hdata, -⟩ := loadValueFromTensor_shape hload
              exact ⟨v', this, hdata⟩
            · exact ih (List.nodup_cons.mp hnd).2 hrec p hp'
        · simp at h

lemma count_forwardPass_map_copyVar (vis : List Nat) :
    ((vis.map RunEvent.copyVar).count RunEvent.forwardPass) = 0 := by
  rw [List.count_eq_zero]
  simp

/-- C2: `run(vars, inputs)` requires as many inputs as target Variables and
every target Variable to be Public with a shape equal to its input's; on
success every target payload becomes a byte-for-byte copy of its input, and
exactly one forward pass happens, after all copies complete. -/
theorem run_binds_public_and_single_forward {G : Type} (fwd : Module → Module)
    (s : EngineState G) (varIdxs : List Nat) (inputs : List GTensor) :
    (inputs.length ≠ varIdxs.length → run fwd s varIdxs inputs = ([], none)) ∧
    (∀ (evs : List RunEvent) (s' : EngineState G),
      run fwd s varIdxs inputs = (evs, some s') →
      inputs.length = varIdxs.length ∧
      (∀ p ∈ varIdxs.zip inputs, ∃ v, s.M_.vars[p.1]? = some v ∧
        v.visibility = VisibilityKind.Public ∧ v.payload.dims = p.2.dims) ∧
      evs = varIdxs.map RunEvent.copyVar ++ [RunEvent.forwardPass] ∧
      evs.count RunEvent.forwardPass = 1 ∧
      evs.getLast? = some RunEvent.forwardPass ∧
      (∃ m', (bindVars s.M_ varIdxs inputs).2 = some m' ∧ s'.M_ = fwd m' ∧
        (varIdxs.Nodup →
          ∀ p ∈ varIdxs.zip inputs, ∃ v, m'.vars[p.1]? = some v ∧
            v.payload.data = p.2.data))) := by
  constructor
  · intro h
    simp [run, h]
  · intro evs s' h
    unfold run at h
    split at h
    · simp at h
    · rename_i hlen
      split at h
      · simp at h
      · split at h
        · simp at h
        · rename_i evs1 m1 heq
          simp only [Prod.mk.injEq, Option.some.injEq] at h
          obtain ⟨h1, h2⟩ := h
          have hevs1 : evs1 = varIdxs.map RunEvent.copyVar := bindVars_events heq
          refine ⟨Decidable.not_not.mp hlen, bindVars_targets heq, ?_, ?_, ?_, ?_⟩
          · rw [← h1, hevs1]
          · rw [← h1, hevs1]
            simp [List.count_append, count_forwardPass_map_copyVar]
          · rw [← h1]
            simp
          · refine ⟨m1, by rw [heq], ?_, fun hnd => bindVars_payload hnd heq⟩
            rw [← h2]

/-- A Public Variable of shape `[2]` holding zeros. -/
def vPub : GVariable :=
  { visibility := VisibilityKind.Public, payload := { dims := [2], data := [0, 0] } }

/-- An engine holding `vPub`, with a non-empty IR container. -/
def engRun : EngineState Nat :=
  { backendKind_ := BackendKind.Interpreter
    M_ := { vars := [vPub] }
    IR_ := { instrs := [{ tag := 0 }], weightDecls := [], activationDecls := [], graph := none }
    backend_ := createBackend BackendKind.Interpreter }

/-- An input tensor matching `vPub`'s shape. -/
def inpFull : GTensor := { dims := [2], data := [7, 8] }

/-- `engRun` after `run` has bound `inpFull` into `vPub`. -/
def engRunAfter : EngineState Nat :=
  { engRun with
    M_ := { vars := [{ vPub with payload := { dims := [2], data := [7, 8] } }] } }

theorem run_binds_public_and_single_forward_witness :
    run id engRun [0] [inpFull] =
      ([RunEvent.copyVar 0, RunEvent.forwardPass], some engRunAfter) ∧
    ([RunEvent.copyVar 0, RunEvent.forwardPass] : List RunEvent).count
      RunEvent.forwardPass = 1 ∧
    ([RunEvent.copyVar 0, RunEvent.forwardPass] : List RunEvent).getLast? =
      some RunEvent.forwardPass :=
  ⟨rfl,
   ((run_binds_public_and_single_forward id engRun [0] [inpFull]).2
      [RunEvent.copyVar 0, RunEvent.forwardPass] engRunAfter rfl).2.2.2.1,
   ((run_binds_public_and_single_forward id engRun [0] [inpFull]).2
      [RunEvent.copyVar 0, RunEvent.forwardPass] engRunAfter rfl).2.2.2.2.1⟩

lemma loadSlices_success_events {c : Nat} {vis : List Nat} :
    ∀ {m : Module} {ts : List GTensor} {evs : List RunEvent} {m' : Module},
      loadSlices c m vis ts = (evs, some m') →
      evs = (vis.zip ts).map (fun p => RunEvent.sliceCopy p.1 (sliceIndexFor c p.2)) := by
  induction vis with
  | nil =>
    intro m ts evs m' h
    simp only [loadSlices, Prod.mk.injEq, Option.some.injEq] at h
    obtain ⟨h1, -⟩ := h
    simp [h1.symm]
  | cons vi vrest ih =>
    intro m ts evs m' h
    cases ts with
    | nil => simp [loadSlices] at h
    | cons t trest =>
      simp only [loadSlices] at h
      split at h
      · simp at h
      · rename_i v hv
        split at h
        · simp at h
        · rename_i v' hload
          simp only [Prod.mk.injEq] at h
          obtain ⟨h1, h2⟩ := h
          have hrec :
              loadSlices c { vars := m.vars.set vi v' } vrest trest =
                ((loadSlices c { vars := m.vars.set vi v' } vrest trest).1, some m') := by
            rw [← h2]
          rw [← h1, List.zip_cons_cons, List.map_cons, ih hrec]

lemma loadSlices_sliceCopy_mem {c : Nat} {vis : List Nat} :
    ∀ {m : Module} {ts : List GTensor} {evs : List RunEvent} {r : Option Module},
      loadSlices c m vis ts = (evs, r) →
      ∀ vi slc, RunEvent.sliceCopy vi slc ∈ evs →
        ∃ t ∈ ts, slc = sliceIndexFor c t := by
  induction vis with
  | nil =>
    intro m ts evs r h vi slc hmem
    simp only [loadSlices, Prod.mk.injEq] at h
    obtain ⟨h1, -⟩ := h
    rw [← h1] at hmem
    simp at hmem
  | cons vi0 vrest ih =>
    intro m ts evs r h vi slc hmem
    cases ts with
    | nil =>
      simp only [loadSlices, Prod.mk.injEq] at h
      obtain ⟨h1, -⟩ := h
      rw [← h1] at hmem
      simp at hmem
    | cons t trest =>
      simp only [loadSlices] at h
      split at h
      · simp only [Prod.mk.injEq] at h
        obtain ⟨h1, -⟩ := h
        rw [← h1] at hmem
        simp at hmem
      · rename_i v hv
        split at h
        · simp only [Prod.mk.injEq] at h
          obtain ⟨h1, -⟩ := h
          rw [← h1] at hmem
          simp at hmem
        · rename_i v' hload
          simp only [Prod.mk.injEq] at h
          obtain ⟨h1, h2⟩ := h
          rw [← h1] at hmem
          rcases List.mem_cons.mp hmem with hhd | htl
          · cases hhd
            exact ⟨t, List.mem_cons_self t trest, rfl⟩
          · have hrec :
                loadSlices c { vars := m.vars.set vi0 v' } vrest trest =
                  ((loadSlices c { vars := m.vars.set vi0 v' } vrest trest).1,
                   (loadSlices c { vars := m.vars.set vi0 v' } vrest trest).2) := rfl
            obtain ⟨t', ht', hslc⟩ := ih hrec vi slc htl
            exact ⟨t', List.mem_cons_of_mem t ht', hslc⟩

lemma updateInputs_events {G : Type} {fwd : Module → Module} {s : EngineState G}
    {vis : List Nat} {ts : List GTensor} {c : Nat} {evs : List RunEvent}
    {s' : EngineState G}
    (h : updateInputsAndRunNetwork fwd s vis ts c = (evs, some s')) :
    evs = (vis.zip ts).map (fun p => RunEvent.sliceCopy p.1 (sliceIndexFor c p.2))
            ++ [RunEvent.forwardPass] := by
  unfold updateInputsAndRunNetwork at h
  split at h
  · simp at h
  · rename_i evs0 m' heq
    simp only [Prod.mk.injEq] at h
    obtain ⟨h1, -⟩ := h
    rw [← h1, loadSlices_success_events heq]

lemma updateInputs_sliceCopy_mem {G : Type} {fwd : Module → Module} {s : EngineState G}
    {vis : List Nat} {ts : List GTensor} {c : Nat} {evs : List RunEvent}
    {r : Option (EngineState G)}
    (h : updateInputsAndRunNetwork fwd s vis ts c = (evs, r)) :
    ∀ vi slc, RunEvent.sliceCopy vi slc ∈ evs → ∃ t ∈ ts, slc = sliceIndexFor c t := by
  intro vi slc hmem
  unfold updateInputsAndRunNetwork at h
  split at h <;>
    rename_i evs0 x heq <;>
    simp only [Prod.mk.injEq] at h
  · obtain ⟨h1, -⟩ := h
    rw [← h1] at hmem
    exact loadSlices_sliceCopy_mem heq vi slc hmem
  · obtain ⟨h1, -⟩ := h
    rw [← h1] at hmem
    rcases List.mem_append.mp hmem with hl | hr
    · exact loadSlices_sliceCopy_mem heq vi slc hl
    · simp at hr

lemma iterationSliceEvents_shift (B : Nat) (varIdxs : List Nat) (inputs : List GTensor)
    (c i : Nat) :
    iterationSliceEvents B varIdxs inputs c (i + 1) =
      iterationSliceEvents B varIdxs inputs (c + B) i := by
  unfold iterationSliceEvents
  have h : c + (i + 1) * B = c + B + i * B := by
    rw [Nat.succ_mul]
    omega
  rw [h]

lemma runBatchLoop_spec {G : Type} {fwd : Module → Module} {varIdxs : List Nat}
    {inputs : List GTensor} {B : Nat} :
    ∀ {k : Nat} {s : EngineState G} {c : Nat} {evs : List RunEvent}
      {s' : EngineState G} {c' : Nat},
      runBatchLoop fwd varIdxs inputs B s c k = (evs, some (s', c')) →
      c' = c + k * B ∧ evs = specBatchTrace B varIdxs inputs c k := by
  intro k
  induction k with
  | zero =>
    intro s c evs s' c' h
    simp only [runBatchLoop, Prod.mk.injEq, Option.some.injEq] at h
    obtain ⟨h1, -, h3⟩ := h
    exact ⟨by omega, by rw [← h1]; rfl⟩
  | succ n ih =>
    intro s c evs s' c' h
    simp only [runBatchLoop] at h
    split at h
    · simp at h
    · rename_i evs0 s1 heq
      simp only [Prod.mk.injEq] at h
      obtain ⟨h1, h2⟩ := h
      have hrec :
          runBatchLoop fwd varIdxs inputs B s1 (c + B) n =
            ((runBatchLoop fwd varIdxs inputs B s1 (c + B) n).1, some (s', c')) := by
        rw [← h2]
      obtain ⟨hc, hevs⟩ := ih hrec
      constructor
      · rw [hc, Nat.succ_mul]
        omega
      · rw [← h1, hevs, updateInputs_events heq]
        show _ = iterationSliceEvents B varIdxs inputs c 0 ++ _
        unfold iterationSliceEvents
        simp [sliceIndexFor]

lemma runBatchLoop_sliceCopy_mem {G : Type} {fwd : Module → Module} {varIdxs : List Nat}
    {inputs : List GTensor} {B : Nat} :
    ∀ {k : Nat} {s : EngineState G} {c : Nat} {evs : List RunEvent}
      {r : Option (EngineState G × Nat)},
      runBatchLoop fwd varIdxs inputs B s c k = (evs, r) →
      ∀ vi slc, RunEvent.sliceCopy vi slc ∈ evs →
        ∃ t ∈ inputs, ∃ idx : Nat, slc = sliceIndexFor idx t := by
  intro k
  induction k with
  | zero =>
    intro s c evs r h vi slc hmem
    simp only [runBatchLoop, Prod.mk.injEq] at h
    obtain ⟨h1, -⟩ := h
    rw [← h1] at hmem
    simp at hmem
  | succ n ih =>
    intro s c evs r h vi slc hmem
    simp only [runBatchLoop] at h
    split at h
    · rename_i evs0 heq
      simp only [Prod.mk.injEq] at h
      obtain ⟨h1, -⟩ := h
      rw [← h1] at hmem
      obtain ⟨t, ht, hslc⟩ := updateInputs_sliceCopy_mem heq vi slc hmem
      exact ⟨t, ht, c, hslc⟩
    · rename_i evs0 s1 heq
      simp only [Prod.mk.injEq] at h
      obtain ⟨h1, -⟩ := h
      rw [← h1] at hmem
      rcases List.mem_append.mp hmem with hl | hr
      · obtain ⟨t, ht, hslc⟩ := updateInputs_sliceCopy_mem heq vi slc hl
        exact ⟨t, ht, c, hslc⟩
      · have hrec :
            runBatchLoop fwd varIdxs inputs B s1 (c + B) n =
              ((runBatchLoop fwd varIdxs inputs B s1 (c + B) n).1,
               (runBatchLoop fwd varIdxs inputs B s1 (c + B) n).2) := rfl
        exact ih hrec vi slc hr

lemma mem_specBatchTrace {B : Nat} {varIdxs : List Nat} {inputs : List GTensor} :
    ∀ {k c i : Nat}, i < k → ∀ {e : RunEvent},
      e ∈ iterationSliceEvents B varIdxs inputs c i →
      e ∈ specBatchTrace B varIdxs inputs c k := by
  intro k
  induction k with
  | zero => intro c i hi; omega
  | succ n ih =>
    intro c i hi e he
    show e ∈ iterationSliceEvents B varIdxs inputs c 0 ++ specBatchTrace B varIdxs inputs (c + B) n
    cases i with
    | zero => exact List.mem_append_left _ he
    | succ j =>
      rw [iterationSliceEvents_shift] at he
      exact List.mem_append_right _ (ih (by omega) he)

lemma runBatch_success {G : Type} {fwd : Module → Module} {s : EngineState G}
    {c k : Nat} {varIdxs : List Nat} {inputs : List GTensor} {evs : List RunEvent}
    {s' : EngineState G} {c' : Nat}
    (h : runBatch fwd s c k varIdxs inputs = (evs, some (s', c'))) :
    c' = c + k * batchSizeOf s varIdxs ∧
    evs = specBatchTrace (batchSizeOf s varIdxs) varIdxs inputs c k := by
  unfold runBatch at h
  split at h
  · simp at h
  · split at h
    · simp at h
    · split at h
      · simp at h
      · split at h
        · simp at h
        · exact runBatchLoop_spec h

/-- C3: a successful `runBatch(k, vars, inputs)` advances the shared cursor
by exactly `k * batchSize`, where `batchSize` is the leading dimension of the
first target Variable; iteration `i` selects, for the variable paired with
input of leading dimension `N`, the slice `(c + i * batchSize) % N` — slice
selection wraps modulo the input's leading dimension while advancement uses
the Variable's batch size; before wraparound, a second single-iteration call
consumes the block of `batchSize` slices directly after the first call's
block, with no overlap. -/
theorem runBatch_cursor_and_slices {G : Type} (fwd : Module → Module)
    (s : EngineState G) (c k : Nat) (varIdxs : List Nat) (inputs : List GTensor)
    (evs : List RunEvent) (s' : EngineState G) (c' : Nat)
    (h : runBatch fwd s c k varIdxs inputs = (evs, some (s', c'))) :
    c' = c + k * batchSizeOf s varIdxs ∧
    evs = specBatchTrace (batchSizeOf s varIdxs) varIdxs inputs c k ∧
    (∀ p ∈ varIdxs.zip inputs, ∀ i : Nat, i < k →
      RunEvent.sliceCopy p.1 ((c + i * batchSizeOf s varIdxs) % p.2.dims.headD 0)
        ∈ evs) ∧
    (∀ p ∈ varIdxs.zip inputs, 0 < batchSizeOf s varIdxs →
      c + 2 * batchSizeOf s varIdxs ≤ p.2.dims.headD 0 →
      (c + batchSizeOf s varIdxs) % p.2.dims.headD 0 =
        c % p.2.dims.headD 0 + batchSizeOf s varIdxs ∧
      (∀ t : Nat, c % p.2.dims.headD 0 ≤ t →
        t < c % p.2.dims.headD 0 + batchSizeOf s varIdxs →
        ¬((c + batchSizeOf s varIdxs) % p.2.dims.headD 0 ≤ t ∧
          t < (c + batchSizeOf s varIdxs) % p.2.dims.headD 0 +
                batchSizeOf s varIdxs))) ∧
    (∀ (evs2 : List RunEvent) (s2 : EngineState G) (c2 : Nat),
      runBatch fwd s' c' 1 varIdxs inputs = (evs2, some (s2, c2)) →
      c2 = c' + batchSizeOf s' varIdxs ∧
      evs2 = specBatchTrace (batchSizeOf s' varIdxs) varIdxs inputs c' 1) := by
  obtain ⟨hc, hevs⟩ := runBatch_success h
  refine ⟨hc, hevs, ?_, ?_, ?_⟩
  · intro p hp i hik
    rw [hevs]
    refine mem_specBatchTrace hik ?_
    exact List.mem_append_left _ (List.mem_map.mpr ⟨p, hp, rfl⟩)
  · intro p hp hB hwrap
    have h1 : c % p.2.dims.headD 0 = c := Nat.mod_eq_of_lt (by omega)
    have h2 : (c + batchSizeOf s varIdxs) % p.2.dims.headD 0 =
        c + batchSizeOf s varIdxs := Nat.mod_eq_of_lt (by omega)
    rw [h1, h2]
    exact ⟨rfl, fun t ht1 ht2 hcon => by omega⟩
  · intro evs2 s2 c2 h2
    obtain ⟨hc2, hevs2⟩ := runBatch_success h2
    exact ⟨by omega, hevs2⟩

/-- A Variable whose batch size (leading payload dimension) is 1. -/
def vBatch : GVariable :=
  { visibility := VisibilityKind.Public, payload := { dims := [1, 1], data := [0] } }

/-- An engine holding `vBatch`, with a non-empty IR container. -/
def engBatch : EngineState Nat :=
  { backendKind_ := BackendKind.Interpreter
    M_ := { vars := [vBatch] }
    IR_ := { instrs := [{ tag := 0 }], weightDecls := [], activationDecls := [], graph := none }
    backend_ := createBackend BackendKind.Interpreter }

/-- A two-sample dataset for `vBatch`. -/
def inpSlice : GTensor := { dims := [2, 1], data := [10, 20] }

/-- `engBatch` after two `runBatch` iterations, holding the second sample. -/
def engBatchAfter2 : EngineState Nat :=
  { engBatch with
    M_ := { vars := [{ vBatch with payload := { dims := [1, 1], data := [20] } }] } }

theorem runBatch_cursor_and_slices_witness :
    (2 : Nat) = 0 + 2 * batchSizeOf engBatch [0] ∧
    [RunEvent.sliceCopy 0 0, RunEvent.forwardPass,
     RunEvent.sliceCopy 0 1, RunEvent.forwardPass] =
      specBatchTrace (batchSizeOf engBatch [0]) [0] [inpSlice] 0 2 :=
  let h := runBatch_cursor_and_slices id engBatch 0 2 [0] [inpSlice]
    [RunEvent.sliceCopy 0 0, RunEvent.forwardPass,
     RunEvent.sliceCopy 0 1, RunEvent.forwardPass]
    engBatchAfter2 2 rfl
  ⟨h.1, h.2.1⟩

/-- C10: the slice index passed to the slice-copy equals the cursor value
reduced modulo the input tensor's leading dimension, hence is strictly below
that leading dimension; every slice-copy event `runBatch` ever emits carries
such an in-bounds index, however far the shared cursor has advanced. -/
theorem slice_index_in_bounds {G : Type} (fwd : Module → Module) (s : EngineState G)
    (c k : Nat) (varIdxs : List Nat) (inputs : List GTensor)
    (v : GVariable) (input : GTensor) (sampleIdx : Nat) (evs : List RunEvent)
    (r : Option (EngineState G × Nat))
    (hpos : 0 < input.dims.headD 0)
    (hall : ∀ t ∈ inputs, 0 < t.dims.headD 0)
    (hrb : runBatch fwd s c k varIdxs inputs = (evs, r)) :
    sliceIndexFor sampleIdx input = sampleIdx % input.dims.headD 0 ∧
    sliceIndexFor sampleIdx input < input.dims.headD 0 ∧
    (∀ v', loadValueFromTensorSlice v input sampleIdx = some v' →
      v'.payload = v.payload.copyConsecutiveSlices input (sliceIndexFor sampleIdx input)) ∧
    (∀ vi slc, RunEvent.sliceCopy vi slc ∈ evs →
      ∃ t ∈ inputs, (∃ idx : Nat, slc = idx % t.dims.headD 0) ∧
        slc < t.dims.headD 0) := by
  refine ⟨rfl, Nat.mod_lt _ hpos, ?_, ?_⟩
  · intro v' hv'
    unfold loadValueFromTensorSlice at hv'
    split at hv'
    · cases hv'
      rfl
    · cases hv'
  · intro vi slc hmem
    have hloop : ∀ t ∈ inputs, ∀ idx : Nat, slc = sliceIndexFor idx t →
        (∃ idx : Nat, slc = idx % t.dims.headD 0) ∧ slc < t.dims.headD 0 := by
      intro t ht idx hidx
      refine ⟨⟨idx, hidx⟩, ?_⟩
      rw [hidx]
      exact Nat.mod_lt _ (hall t ht)
    unfold runBatch at hrb
    split at hrb
    · simp only [Prod.mk.injEq] at hrb
      obtain ⟨h1, -⟩ := hrb
      rw [← h1] at hmem
      simp at hmem
    · split at hrb
      · simp only [Prod.mk.injEq] at hrb
        obtain ⟨h1, -⟩ := hrb
        rw [← h1] at hmem
        simp at hmem
      · split at hrb
        · simp only [Prod.mk.injEq] at hrb
          obtain ⟨h1, -⟩ := hrb
          rw [← h1] at hmem
          simp at hmem
        · split at hrb
          · simp only [Prod.mk.injEq] at hrb
            obtain ⟨h1, -⟩ := hrb
            rw [← h1] at hmem
            simp at hmem
          · obtain ⟨t, ht, idx, hidx⟩ := runBatchLoop_sliceCopy_mem hrb vi slc hmem
            exact ⟨t, ht, hloop t ht idx hidx⟩

/-- `engBatch` after one `runBatch` iteration, holding the first sample. -/
def engBatchAfter1 : EngineState Nat :=
  { engBatch with
    M_ := { vars := [{ vBatch with payload := { dims := [1, 1], data := [10] } }] } }

theorem slice_index_in_bounds_witness :
    sliceIndexFor 5 inpSlice = 5 % inpSlice.dims.headD 0 ∧
    sliceIndexFor 5 inpSlice < inpSlice.dims.headD 0 :=
  let h := slice_index_in_bounds id engBatch 0 1 [0] [inpSlice] vBatch inpSlice 5
    [RunEvent.sliceCopy 0 0, RunEvent.forwardPass] (some (engBatchAfter1, 1))
    (by decide) (by decide) rfl
  ⟨h.1, h.2.1⟩

/-- A process holding two independent engine instances and the one static
batch cursor, initially 0. -/
def procCex : ProcessState Nat :=
  { trainCounter := 0, engines := [engBatch, engBatch] }

/-- `procCex` after engine 0 ran one `runBatch` iteration: the single static
cursor is now 1. -/
def procCexAfter : ProcessState Nat :=
  { trainCounter := 1, engines := [engBatchAfter1, engBatch] }

/-- C9 counterexample: the batch cursor is NOT per-engine state.  Engine 0
runs one `runBatch` iteration, advancing the one static cursor to 1; engine
1, which has never run before, then performs its first `runBatch` and — with
its own cursor it would read slice 0 — actually reads slice 1, because the
cursor is a single process-wide `static` shared by both engine instances. -/
theorem shared_cursor_counterexample :
    processRunBatch id procCex 0 1 [0] [inpSlice] =
      ([RunEvent.sliceCopy 0 0, RunEvent.forwardPass], some procCexAfter) ∧
    procCexAfter.trainCounter = 1 ∧
    (processRunBatch id procCexAfter 1 1 [0] [inpSlice]).1 =
      [RunEvent.sliceCopy 0 1, RunEvent.forwardPass] ∧
    (specBatchTrace (batchSizeOf engBatch [0]) [0] [inpSlice] 0 1).head? =
      some (RunEvent.sliceCopy 0 0) :=
  ⟨rfl, rfl, rfl, rfl⟩

/-- C9 amended: the batch cursor is persistent, process-wide state shared by
every Execution Engine instance (it is a function-local `static`): `reset`,
`run` and `compile` on any engine never modify it, and `runBatch` on ANY
engine index advances the single shared counter by `k * batchSize`. -/
theorem cursor_process_shared {G : Type} (fwd : Module → Module)
    (ops : PipelineOps G) (p : ProcessState G) (i j k : Nat)
    (mode : CompilationMode) (F : G) (varIdxs : List Nat) (inputs : List GTensor) :
    (processReset p i).trainCounter = p.trainCounter ∧
    (∀ (evs : List RunEvent) (p' : ProcessState G),
      processRun fwd p i varIdxs inputs = (evs, some p') →
      p'.trainCounter = p.trainCounter) ∧
    (∀ (evs : List PipeStep) (p' : ProcessState G),
      processCompile ops p i mode F = (evs, some p') →
      p'.trainCounter = p.trainCounter) ∧
    (∀ (evs : List RunEvent) (p' : ProcessState G) (s : EngineState G),
      p.engines[j]? = some s →
      processRunBatch fwd p j k varIdxs inputs = (evs, some p') →
      p'.trainCounter = p.trainCounter + k * batchSizeOf s varIdxs) := by
  refine ⟨?_, ?_, ?_, ?_⟩
  · unfold processReset
    split
    · rfl
    · rfl
  · intro evs p' h
    unfold processRun at h
    split at h
    · simp at h
    · split at h
      · simp at h
      · simp only [Prod.mk.injEq, Option.some.injEq] at h
        obtain ⟨-, h2⟩ := h
        rw [← h2]
  · intro evs p' h
    unfold processCompile at h
    split at h
    · simp at h
    · split at h
      · simp at h
      · simp only [Prod.mk.injEq, Option.some.injEq] at h
        obtain ⟨-, h2⟩ := h
        rw [← h2]
  · intro evs p' s hs h
    unfold processRunBatch at h
    split at h
    · simp at h
    · rename_i s0 hs0
      split at h
      · simp at h
      · rename_i heq
        cases h
        rw [hs] at hs0
        injection hs0 with h'
        subst h'
        exact (runBatch_success heq).1

theorem cursor_process_shared_witness :
    (processReset procCex 0).trainCounter = procCex.trainCounter ∧
    procCexAfter.trainCounter = procCex.trainCounter + 1 * batchSizeOf engBatch [0] :=
  let h := cursor_process_shared id opsEx procCex 0 0 1 CompilationMode.Infer 0
    [0] [inpSlice]
  ⟨h.1,
   h.2.2.2 [RunEvent.sliceCopy 0 0, RunEvent.forwardPass] procCexAfter engBatch rfl rfl⟩

lemma writeBytes_length (buf : List Nat) (off : Nat) (data : List Nat) :
    (writeBytes buf off data).length = buf.length := by
  simp only [writeBytes, List.length_take, List.length_append, List.length_drop]
  omega

/-- C8: the bundle consumer allocates each of the three regions to exactly
the sizes in `BundleConfig`; the mutable and activations buffers are
zero-initialized before the inputs are copied in and before the entry point
runs; inputs are spliced into the freshly zeroed mutable buffer without
changing its size; and the entry point is invoked exactly once. -/
theorem bundle_buffers_contract
    (entry : List Nat → List Nat → List Nat → List Nat × List Nat × List Nat)
    (config : BundleConfig) (weightsFile imageBytes : List Nat)
    (hw : weightsFile.length = config.constantWeightVarsMemSize) :
    initConstantWeights weightsFile config = some weightsFile ∧
    (∀ buf, initConstantWeights weightsFile config = some buf →
      buf.length = config.constantWeightVarsMemSize) ∧
    (allocateMutableWeightVars config).length = config.mutableWeightVarsMemSize ∧
    allocateMutableWeightVars config = List.replicate config.mutableWeightVarsMemSize 0 ∧
    (initActivations config).length = config.activationsMemSize ∧
    initActivations config = List.replicate config.activationsMemSize 0 ∧
    initMutableWeightVars config imageBytes =
      writeBytes (writeBytes (allocateMutableWeightVars config) 0 imageBytes)
        imageBytes.length imageBytes ∧
    (initMutableWeightVars config imageBytes).length = config.mutableWeightVarsMemSize ∧
    (mainBundle entry config weightsFile imageBytes).1 =
      [MainEvent.loadConstants, MainEvent.loadInputs, MainEvent.allocActivations,
       MainEvent.entryPoint, MainEvent.dumpResults] ∧
    (mainBundle entry config weightsFile imageBytes).1.count MainEvent.entryPoint = 1 := by
  have hconst : initConstantWeights weightsFile config = some weightsFile := by
    simp [initConstantWeights, hw]
  refine ⟨hconst, ?_, ?_, rfl, ?_, rfl, rfl, ?_, ?_, ?_⟩
  · intro buf hbuf
    rw [hconst] at hbuf
    cases hbuf
    exact hw
  · simp [allocateMutableWeightVars]
  · simp [initActivations]
  · rw [initMutableWeightVars, writeBytes_length, writeBytes_length]
    simp [allocateMutableWeightVars]
  · simp [mainBundle, hconst]
  · simp [mainBundle, hconst]

/-- A small concrete bundle config: 2 constant bytes, 4 mutable bytes,
3 activation bytes. -/
def cfgBundle : BundleConfig :=
  { constantWeightVarsMemSize := 2, mutableWeightVarsMemSize := 4, activationsMemSize := 3 }

theorem bundle_buffers_contract_witness :
    initConstantWeights [5, 6] cfgBundle = some [5, 6] ∧
    (allocateMutableWeightVars cfgBundle).length = cfgBundle.mutableWeightVarsMemSize ∧
    (initMutableWeightVars cfgBundle [9]).length = cfgBundle.mutableWeightVarsMemSize ∧
    (mainBundle entryEx cfgBundle [5, 6] [9]).1.count MainEvent.entryPoint = 1 :=
  let h := bundle_buffers_contract entryEx cfgBundle [5, 6] [9] rfl
  ⟨h.1, h.2.2.1, h.2.2.2.2.2.2.2.1, h.2.2.2.2.2.2.2.2.2⟩

end Glow
